import Mathlib

/-!
Verification of the AFE4410/AFE4420 optical bio-sensor driver core
(drivers/iio/health): the register field-group codec, the I2C FIFO
byte-stream repacker, and the AFE4420 phase/scan coordinator.

Machine integers are modelled as Nat/Int with explicit reduction modulo
2 ^ 32 where C unsigned-int arithmetic can wrap; fallible transport
operations return Except.  Source locations are cited next to each
definition.
-/

/-- Bit-disjoint OR is addition: OR-ing a value below 2 ^ k into a value
shifted left by k places just adds the two. -/
theorem shiftLeft_lor_eq_add {a b k : Nat} (ha : a < 2 ^ k) :
    (b <<< k) ||| a = b <<< k + a := by
  rw [Nat.shiftLeft_eq, Nat.mul_comm]
  exact (Nat.mul_add_lt_is_or ha b).symm

/-- Bit-disjoint OR is addition, with the low part on the left. -/
theorem lor_shiftLeft_eq_add {a b k : Nat} (ha : a < 2 ^ k) :
    a ||| (b <<< k) = a + b <<< k := by
  rw [Nat.lor_comm, shiftLeft_lor_eq_add ha, Nat.add_comm]

/-! ### FieldGroup codec (regmap_group_read / regmap_group_write)

Source: src/unnamed/part_001 lines 222-257.  A field group is a list of
hardware fields; each regmap field has a bit width
(hweight_long(fields[field]->mask) in the source) and answers a
transport read with either a raw value or a transport error
(regmap_field_read).  A raw value produced by regmap_field_write is the
written value masked to the field width. -/

/-- One hardware field of a group as the codec sees it: its bit width and
the value the transport currently answers for it. -/
structure GroupField (E : Type) where
  width : Nat
  readRes : Except E Nat

/-- Shallow embedding of regmap_group_read (src/unnamed/part_001 lines
222-241): iterate the group's fields in order, OR each field's raw value
into the accumulator at the running bit offset (u32 arithmetic, hence
the reduction modulo 2 ^ 32 of the shifted operand), advance the offset
by the field's width; abort with the first transport error. -/
def regmap_group_read {E : Type} : List (GroupField E) → Nat → Nat → Except E Nat
  | [], _, acc => .ok acc
  | f :: fs, shift, acc =>
    match f.readRes with
    | .error e => .error e
    | .ok v => regmap_group_read fs (shift + f.width) (acc ||| ((v <<< shift) % 2 ^ 32))

/-- Shallow embedding of regmap_group_write (src/unnamed/part_001 lines
243-257) under a fault-free transport, as the list of raw values the
fields hold afterwards: each regmap_field_write stores the value masked
to the field width, and the loop right-shifts the value by that width
before the next field. -/
def regmap_group_write : List Nat → Nat → List Nat
  | [], _ => []
  | w :: ws, v => (v % 2 ^ w) :: regmap_group_write ws (v / 2 ^ w)

/-- Rebuild the group a fault-free transport presents after a write: the
i-th field has the i-th width and answers the i-th stored raw value. -/
def mkFields {E : Type} : List Nat → List Nat → List (GroupField E)
  | w :: ws, r :: rs => ⟨w, Except.ok r⟩ :: mkFields ws rs
  | _, _ => []

/-- Reading back the raw values stored by a group write accumulates
exactly the written value reduced modulo the group's total width, shifted
into place above an accumulator that fits below the starting offset. -/
theorem regmap_group_read_write_aux {E : Type} (ws : List Nat) :
    ∀ (v shift acc : Nat), shift + ws.sum ≤ 32 → acc < 2 ^ shift →
      regmap_group_read (E := E) (mkFields ws (regmap_group_write ws v)) shift acc
        = .ok (acc + (v % 2 ^ ws.sum) * 2 ^ shift) := by
  induction ws with
  | nil =>
    intro v shift acc _ _
    simp [regmap_group_write, mkFields, regmap_group_read, Nat.mod_one]
  | cons w ws ih =>
    intro v shift acc hW hacc
    have hW' : shift + (w + ws.sum) ≤ 32 := by simpa [List.sum_cons] using hW
    have hraw : v % 2 ^ w < 2 ^ w := Nat.mod_lt _ (Nat.two_pow_pos w)
    have hlt32 : (v % 2 ^ w) * 2 ^ shift < 2 ^ 32 := by
      calc (v % 2 ^ w) * 2 ^ shift
          < 2 ^ w * 2 ^ shift := by
            exact Nat.mul_lt_mul_of_lt_of_le hraw (Nat.le_refl _) (Nat.two_pow_pos shift)
        _ = 2 ^ (w + shift) := (Nat.pow_add 2 w shift).symm
        _ ≤ 2 ^ 32 := Nat.pow_le_pow_right (by omega) (by omega)
    have hacc' : acc ||| (((v % 2 ^ w) <<< shift) % 2 ^ 32)
        = acc + (v % 2 ^ w) * 2 ^ shift := by
      rw [Nat.shiftLeft_eq, Nat.mod_eq_of_lt hlt32,
        show (v % 2 ^ w) * 2 ^ shift = (v % 2 ^ w) <<< shift from (Nat.shiftLeft_eq _ _).symm]
      exact lor_shiftLeft_eq_add hacc
    have haccb : acc + (v % 2 ^ w) * 2 ^ shift < 2 ^ (shift + w) := by
      have h1 : (v % 2 ^ w) * 2 ^ shift ≤ (2 ^ w - 1) * 2 ^ shift :=
        Nat.mul_le_mul_right _ (by omega)
      have h2 : 2 ^ (shift + w) = 2 ^ shift * 2 ^ w := Nat.pow_add 2 shift w
      have h3 : (2 ^ w - 1) * 2 ^ shift = 2 ^ shift * 2 ^ w - 2 ^ shift := by
        rw [Nat.sub_one_mul, Nat.mul_comm]
      have h4 : 2 ^ shift ≤ 2 ^ shift * 2 ^ w :=
        Nat.le_mul_of_pos_right _ (Nat.two_pow_pos w)
      omega
    simp only [regmap_group_write, mkFields, regmap_group_read]
    rw [hacc', ih (v / 2 ^ w) (shift + w) _ (by simp only [List.sum_cons] at hW; omega) haccb]
    congr 1
    simp only [List.sum_cons, Nat.pow_add, Nat.mod_mul]
    ring

/-- Claim C1: for every field group with total width W at most 32 and
every value v, writing v to the group and reading it back under a
fault-free transport returns v mod 2 ^ W; a value wider than W silently
loses its high bits. -/
theorem c1_group_write_read_roundtrip {E : Type} (ws : List Nat) (v : Nat)
    (hW : ws.sum ≤ 32) :
    regmap_group_read (E := E) (mkFields ws (regmap_group_write ws v)) 0 0
      = .ok (v % 2 ^ ws.sum) := by
  have h := regmap_group_read_write_aux (E := E) ws v 0 0 (by omega) (by norm_num)
  simpa using h

/-- Witness for C1: the two-field group of widths 3 and 1 (the
G_TIA_GAIN layout) has total width 4; writing 0x2b = 43 stores
43 mod 16 = 11. -/
theorem c1_group_write_read_roundtrip_witness :
    regmap_group_read (E := Unit) (mkFields [3, 1] (regmap_group_write [3, 1] 43)) 0 0
      = .ok (43 % 2 ^ ([3, 1] : List Nat).sum) :=
  c1_group_write_read_roundtrip (E := Unit) [3, 1] 43 (by decide)

/-- Claim C8: group read iterates the fields in order of increasing
significance, aborts at the first field whose transport read fails, and
returns that transport error; the result carries no (partial) value.
Stated for any prefix of successfully reading fields followed by the
first failing field, at any starting offset and accumulator, whatever
fields follow the failure. -/
theorem c8_group_read_aborts_on_first_error {E : Type} (pre : List (GroupField E))
    (hpre : ∀ f ∈ pre, ∃ v, f.readRes = Except.ok v)
    (w : Nat) (e : E) (rest : List (GroupField E)) :
    ∀ (shift acc : Nat),
      regmap_group_read (pre ++ ⟨w, Except.error e⟩ :: rest) shift acc = .error e := by
  induction pre with
  | nil => intro shift acc; simp [regmap_group_read]
  | cons f fs ih =>
    intro shift acc
    obtain ⟨v, hv⟩ := hpre f (List.mem_cons_self f fs)
    simp only [List.cons_append, regmap_group_read, hv]
    exact ih (fun g hg => hpre g (List.mem_cons_of_mem f hg)) _ _

/-- Witness for C8: a two-field group whose second field read fails with
error code 5 aborts with exactly that error. -/
theorem c8_group_read_aborts_on_first_error_witness :
    regmap_group_read ([⟨3, Except.ok 6⟩] ++ ⟨1, Except.error 5⟩ :: [⟨2, Except.ok 1⟩])
      0 0 = .error 5 :=
  c8_group_read_aborts_on_first_error [⟨3, Except.ok 6⟩]
    (by intro f hf; simp at hf; exact ⟨6, by rw [hf]⟩) 1 5 [⟨2, Except.ok 1⟩] 0 0

/-! ### FIFO byte-stream repack (afe4410_i2c_fifo_read)

Source: src/drivers/iio/health/afe4410-i2c.c lines 39-45.  After the
I2C transfer, the buffer holds len-quarter 3-byte big-endian samples at
stride 3 that must be repacked into 4-byte destination slots at stride 4
over the same backing memory.  Memory is modelled as a byte map
Nat -> Nat with every byte below 256; a 32-bit slot store lays its four
bytes out in host little-endian order (the s32 store of the source on
the little-endian hosts this driver targets). -/

/-- Write one byte of the backing buffer. -/
def writeByte (mem : Nat → Nat) (a v : Nat) : Nat → Nat :=
  fun x => if x = a then v else mem x

/-- Store buffer[i] = v: the four bytes of the 32-bit value v at byte
offsets 4i..4i+3, little-endian. -/
def writeSlot (mem : Nat → Nat) (i v : Nat) : Nat → Nat :=
  writeByte (writeByte (writeByte (writeByte mem (4 * i) (v % 256))
    (4 * i + 1) (v / 2 ^ 8 % 256)) (4 * i + 2) (v / 2 ^ 16 % 256))
    (4 * i + 3) (v / 2 ^ 24 % 256)

/-- Read destination slot i back as a 32-bit value. -/
def slotVal (mem : Nat → Nat) (i : Nat) : Nat :=
  mem (4 * i) ||| (mem (4 * i + 1) <<< 8) ||| (mem (4 * i + 2) <<< 16) |||
    (mem (4 * i + 3) <<< 24)

/-- The value the source composes for slot i:
buf_alias[3i] << 16 | buf_alias[3i+1] << 8 | buf_alias[3i+2] << 0. -/
def tripleVal (mem : Nat → Nat) (i : Nat) : Nat :=
  (mem (3 * i) <<< 16) ||| (mem (3 * i + 1) <<< 8) ||| mem (3 * i + 2)

/-- One iteration of the repack loop body:
buffer[i] = buf_alias[i*3] << 16 | buf_alias[i*3+1] << 8 | buf_alias[i*3+2]. -/
def repackAt (mem : Nat → Nat) (i : Nat) : Nat → Nat :=
  writeSlot mem i (tripleVal mem i)

/-- The source's descending repack loop over n slots:
for (i = (len >> 2) - 1; i >= 0; i--) buffer[i] = ...; processes slot
n-1 first, then n-2, down to slot 0. -/
def afe4410_i2c_fifo_repack (mem : Nat → Nat) : Nat → (Nat → Nat)
  | 0 => mem
  | k + 1 => afe4410_i2c_fifo_repack (repackAt mem k) k

/-- The hypothetical ascending variant of the same loop body: processes
slot 0 first, then 1, up to slot n-1. -/
def afe4410_i2c_fifo_repack_ascending (mem : Nat → Nat) : Nat → (Nat → Nat)
  | 0 => mem
  | k + 1 => repackAt (afe4410_i2c_fifo_repack_ascending mem k) k

/-- Bit-disjoint OR is addition when the left operand has its low k bits
clear and the right operand fits in k bits. -/
theorem lor_eq_add_of_low_zero {x y k : Nat} (hx : 2 ^ k ∣ x) (hy : y < 2 ^ k) :
    x ||| y = x + y := by
  obtain ⟨c, rfl⟩ := hx
  exact (Nat.mul_add_lt_is_or hy c).symm

theorem writeSlot_byte0 (mem : Nat → Nat) (i v : Nat) :
    writeSlot mem i v (4 * i) = v % 256 := by
  simp only [writeSlot, writeByte]
  rw [if_neg (by omega), if_neg (by omega), if_neg (by omega)]
  simp

theorem writeSlot_byte1 (mem : Nat → Nat) (i v : Nat) :
    writeSlot mem i v (4 * i + 1) = v / 2 ^ 8 % 256 := by
  simp only [writeSlot, writeByte]
  rw [if_neg (by omega), if_neg (by omega)]
  simp

theorem writeSlot_byte2 (mem : Nat → Nat) (i v : Nat) :
    writeSlot mem i v (4 * i + 2) = v / 2 ^ 16 % 256 := by
  simp only [writeSlot, writeByte]
  rw [if_neg (by omega)]
  simp

theorem writeSlot_byte3 (mem : Nat → Nat) (i v : Nat) :
    writeSlot mem i v (4 * i + 3) = v / 2 ^ 24 % 256 := by
  simp only [writeSlot, writeByte]
  simp

/-- A slot store touches only its own four bytes. -/
theorem writeSlot_outside (mem : Nat → Nat) (i v x : Nat)
    (h : x < 4 * i ∨ 4 * i + 4 ≤ x) : writeSlot mem i v x = mem x := by
  simp only [writeSlot, writeByte]
  rw [if_neg (by omega), if_neg (by omega), if_neg (by omega), if_neg (by omega)]

/-- Storing a 32-bit value into a slot and reading the slot back is the
identity. -/
theorem slotVal_writeSlot (mem : Nat → Nat) (i v : Nat) (hv : v < 2 ^ 32) :
    slotVal (writeSlot mem i v) i = v := by
  simp only [slotVal, writeSlot_byte0, writeSlot_byte1, writeSlot_byte2, writeSlot_byte3,
    Nat.shiftLeft_eq]
  have hA : v % 256 ||| v / 2 ^ 8 % 256 * 2 ^ 8
      = v % 256 + v / 2 ^ 8 % 256 * 2 ^ 8 := by
    rw [Nat.lor_comm]
    rw [lor_eq_add_of_low_zero (k := 8) (dvd_mul_left _ _) (by omega)]
    omega
  have hB : v % 256 + v / 2 ^ 8 % 256 * 2 ^ 8 ||| v / 2 ^ 16 % 256 * 2 ^ 16
      = v % 256 + v / 2 ^ 8 % 256 * 2 ^ 8 + v / 2 ^ 16 % 256 * 2 ^ 16 := by
    rw [Nat.lor_comm]
    rw [lor_eq_add_of_low_zero (k := 16) (dvd_mul_left _ _) (by omega)]
    omega
  have hC : v % 256 + v / 2 ^ 8 % 256 * 2 ^ 8 + v / 2 ^ 16 % 256 * 2 ^ 16 |||
        v / 2 ^ 24 % 256 * 2 ^ 24
      = v % 256 + v / 2 ^ 8 % 256 * 2 ^ 8 + v / 2 ^ 16 % 256 * 2 ^ 16 +
        v / 2 ^ 24 % 256 * 2 ^ 24 := by
    rw [Nat.lor_comm]
    rw [lor_eq_add_of_low_zero (k := 24) (dvd_mul_left _ _) (by omega)]
    omega
  rw [hA, hB, hC]
  omega

/-- The loop body touches only the four bytes of its destination slot. -/
theorem repackAt_outside (mem : Nat → Nat) (i x : Nat)
    (h : x < 4 * i ∨ 4 * i + 4 ≤ x) : repackAt mem i x = mem x :=
  writeSlot_outside mem i _ x h

/-- The descending pass over n slots never writes at or above byte 4n. -/
theorem repack_outside : ∀ (n : Nat) (mem : Nat → Nat) (x : Nat), 4 * n ≤ x →
    afe4410_i2c_fifo_repack mem n x = mem x := by
  intro n
  induction n with
  | zero => intro mem x _; rfl
  | succ k ih =>
    intro mem x hx
    simp only [afe4410_i2c_fifo_repack]
    rw [ih (repackAt mem k) x (by omega)]
    exact repackAt_outside mem k x (by omega)

/-- A slot store keeps every byte of the buffer below 256. -/
theorem writeSlot_bytes_lt (mem : Nat → Nat) (i v : Nat) (hm : ∀ a, mem a < 256) :
    ∀ a, writeSlot mem i v a < 256 := by
  intro a
  simp only [writeSlot, writeByte]
  split
  · exact Nat.mod_lt _ (by norm_num)
  split
  · exact Nat.mod_lt _ (by norm_num)
  split
  · exact Nat.mod_lt _ (by norm_num)
  split
  · exact Nat.mod_lt _ (by norm_num)
  exact hm a

theorem repackAt_bytes_lt (mem : Nat → Nat) (i : Nat) (hm : ∀ a, mem a < 256) :
    ∀ a, repackAt mem i a < 256 :=
  writeSlot_bytes_lt mem i _ hm

/-- The composed 24-bit sample value fits in 24 bits. -/
theorem tripleVal_lt (mem : Nat → Nat) (i : Nat) (hm : ∀ a, mem a < 256) :
    tripleVal mem i < 2 ^ 24 := by
  have h0 : mem (3 * i) <<< 16 < 2 ^ 24 := by
    rw [Nat.shiftLeft_eq]; have := hm (3 * i); omega
  have h1 : mem (3 * i + 1) <<< 8 < 2 ^ 24 := by
    rw [Nat.shiftLeft_eq]; have := hm (3 * i + 1); omega
  have h2 : mem (3 * i + 2) < 2 ^ 24 := by have := hm (3 * i + 2); omega
  exact Nat.or_lt_two_pow (Nat.or_lt_two_pow h0 h1) h2

theorem slotVal_congr {mem mem' : Nat → Nat} (i : Nat)
    (h0 : mem (4 * i) = mem' (4 * i)) (h1 : mem (4 * i + 1) = mem' (4 * i + 1))
    (h2 : mem (4 * i + 2) = mem' (4 * i + 2)) (h3 : mem (4 * i + 3) = mem' (4 * i + 3)) :
    slotVal mem i = slotVal mem' i := by
  simp [slotVal, h0, h1, h2, h3]

theorem tripleVal_congr {mem mem' : Nat → Nat} (i : Nat)
    (h0 : mem (3 * i) = mem' (3 * i)) (h1 : mem (3 * i + 1) = mem' (3 * i + 1))
    (h2 : mem (3 * i + 2) = mem' (3 * i + 2)) :
    tripleVal mem i = tripleVal mem' i := by
  simp [tripleVal, h0, h1, h2]

/-- Correctness of the descending pass: every destination slot below the
slot count receives the 24-bit big-endian value of its own three source
bytes, because a slot store at index k only touches bytes 4k..4k+3 while
all later (lower-index) iterations read bytes below 4k. -/
theorem repack_desc_correct : ∀ (k : Nat) (mem : Nat → Nat), (∀ a, mem a < 256) →
    ∀ j, j < k → slotVal (afe4410_i2c_fifo_repack mem k) j = tripleVal mem j := by
  intro k
  induction k with
  | zero => intro mem _ j hj; omega
  | succ k ih =>
    intro mem hm j hj
    have hm' : ∀ a, repackAt mem k a < 256 := repackAt_bytes_lt mem k hm
    simp only [afe4410_i2c_fifo_repack]
    rcases Nat.lt_or_ge j k with h | h
    · rw [ih (repackAt mem k) hm' j h]
      exact tripleVal_congr j (repackAt_outside mem k _ (by omega))
        (repackAt_outside mem k _ (by omega)) (repackAt_outside mem k _ (by omega))
    · have hjk : j = k := by omega
      subst hjk
      rw [slotVal_congr j (repack_outside j _ _ (by omega)) (repack_outside j _ _ (by omega))
        (repack_outside j _ _ (by omega)) (repack_outside j _ _ (by omega))]
      exact slotVal_writeSlot mem j _
        (Nat.lt_trans (tripleVal_lt mem j hm) (by norm_num))

/-- Claim C2: for every slot count n greater than 1 and every byte buffer,
the descending pass leaves every destination slot i (stride 4) equal to
(hi << 16 | mid << 8 | lo) composed from the source bytes at offsets
3i, 3i+1, 3i+2 (stride 3) of the original buffer. -/
theorem c2_fifo_repack_descending_correct (mem : Nat → Nat) (n : Nat)
    (hn : 1 < n) (hm : ∀ a, mem a < 256) (i : Nat) (hi : i < n) :
    slotVal (afe4410_i2c_fifo_repack mem n) i
      = (mem (3 * i) <<< 16) ||| (mem (3 * i + 1) <<< 8) ||| mem (3 * i + 2) :=
  repack_desc_correct n mem hm i hi

/-- Concrete byte buffer used by the repack witnesses: byte a holds
a mod 256. -/
def memBytes : Nat → Nat := fun a => a % 256

/-- Witness for C2: with two slots and bytes 0,1,2,3,4,5,... slot 1 of
the descending pass holds 3 << 16 | 4 << 8 | 5. -/
theorem c2_fifo_repack_descending_correct_witness :
    slotVal (afe4410_i2c_fifo_repack memBytes 2) 1
      = (memBytes 3 <<< 16) ||| (memBytes 4 <<< 8) ||| memBytes 5 :=
  c2_fifo_repack_descending_correct memBytes 2 (by norm_num)
    (fun a => Nat.mod_lt a (by norm_num)) 1 (by norm_num)

/-- Below byte 8 the ascending pass is already settled after two slots:
iterations at slot index 2 and above only write bytes 8 and higher. -/
theorem repack_asc_stable_low (mem : Nat → Nat) :
    ∀ n, 2 ≤ n → ∀ x, x < 8 →
      afe4410_i2c_fifo_repack_ascending mem n x
        = afe4410_i2c_fifo_repack_ascending mem 2 x := by
  intro n
  induction n with
  | zero => intro h; omega
  | succ k ih =>
    intro h2 x hx
    rcases Nat.lt_or_ge k 2 with h | h
    · have hk : k + 1 = 2 := by omega
      rw [hk]
    · simp only [afe4410_i2c_fifo_repack_ascending]
      rw [repackAt_outside _ k x (Or.inl (by omega))]
      exact ih h x hx

/-- Claim C3: for every slot count greater than 1, the ascending variant
of the repack loop is not equivalent to the descending pass: there is an
input buffer on which some slot beyond the first ends up different from
the 24-bit big-endian value of its original source bytes, because the
slot-0 store overwrites source byte 3 before slot 1 reads it. -/
theorem c3_fifo_repack_ascending_corrupts (n : Nat) (hn : 1 < n) :
    ∃ mem : Nat → Nat, (∀ a, mem a < 256) ∧ ∃ i, 0 < i ∧ i < n ∧
      slotVal (afe4410_i2c_fifo_repack_ascending mem n) i
        ≠ (mem (3 * i) <<< 16) ||| (mem (3 * i + 1) <<< 8) ||| mem (3 * i + 2) := by
  refine ⟨memBytes, fun a => Nat.mod_lt a (by norm_num), 1, by norm_num, hn, ?_⟩
  rw [slotVal_congr 1 (repack_asc_stable_low memBytes n hn 4 (by norm_num))
    (repack_asc_stable_low memBytes n hn 5 (by norm_num))
    (repack_asc_stable_low memBytes n hn 6 (by norm_num))
    (repack_asc_stable_low memBytes n hn 7 (by norm_num))]
  decide

/-- Witness for C3: the corrupting input exists already at slot count 2. -/
theorem c3_fifo_repack_ascending_corrupts_witness :
    ∃ mem : Nat → Nat, (∀ a, mem a < 256) ∧ ∃ i, 0 < i ∧ i < 2 ∧
      slotVal (afe4410_i2c_fifo_repack_ascending mem 2) i
        ≠ (mem (3 * i) <<< 16) ||| (mem (3 * i + 1) <<< 8) ||| mem (3 * i + 2) :=
  c3_fifo_repack_ascending_corrupts 2 (by norm_num)

/-! ### AFE4420 sampling interrupt handler (afe4420_trigger_handler)

Source: src/drivers/iio/health/afe4420-core.c lines 842-878.  The
handler reads the pointer-difference register, sign-extends it with
sign_extend32(reg_val, 8) (sign bit at bit index 8, i.e. a 9-bit field),
adds one, validates divisibility by used_phases, reads the FIFO through
the transport callback and pushes one frame per cycle.  C arithmetic
details preserved: pointer_diff is int, afe->used_phases is unsigned
int, so pointer_diff % used_phases and pointer_diff / used_phases are
computed after converting pointer_diff to u32; the byte length passed to
fifo_read is truncated back to int.  The dev_err/dev_info/dev_dbg calls
are log-only and carry no data flow. -/

/-- C conversion of a signed int to unsigned 32-bit (reduction modulo
2 ^ 32). -/
def u32ofInt (x : Int) : Nat := (x % (2 ^ 32 : Int)).toNat

/-- C conversion of a nonnegative wide value to a signed 32-bit int
(two's complement truncation). -/
def toS32 (x : Nat) : Int :=
  if x % 2 ^ 32 < 2 ^ 31 then ((x % 2 ^ 32 : Nat) : Int)
  else ((x % 2 ^ 32 : Nat) : Int) - 2 ^ 32

/-- Shallow embedding of the kernel's sign_extend32(value, index):
shift the value up so that bit number index lands on bit 31, then
arithmetically shift back down; equivalently, interpret the low
index + 1 bits of the value in two's complement. -/
def sign_extend32 (value : Nat) (index : Nat) : Int :=
  if value % 2 ^ (index + 1) < 2 ^ index then ((value % 2 ^ (index + 1) : Nat) : Int)
  else ((value % 2 ^ (index + 1) : Nat) : Int) - 2 ^ (index + 1)

/-- The expected per-service FIFO depth (AFE4420_FIFO_LEN). -/
def AFE4420_FIFO_LEN : Nat := 10

/-- The collaborators of one interrupt service: the pointer-difference
register read (regmap_read of AFE4420_POINTER_DIFF), the transport FIFO
read callback (afe->fifo_read, taking the byte length and yielding the
decoded slot contents of afe->buffer), and the stored active phase
count afe->used_phases. -/
structure TriggerEnv (E : Type) where
  readPointerDiff : Except E Nat
  fifoRead : Int → Except E (Nat → Int)
  usedPhases : Nat

/-- How one interrupt service ended. -/
inductive TriggerTag (E : Type)
  | readErr (e : E)
  | framingErr
  | fifoErr (e : E)
  | success
  deriving DecidableEq

/-- irqreturn_t. -/
inductive IrqStatus
  | irqNone
  | handled
  deriving DecidableEq

/-- Observable outcome of one interrupt service: how it ended, the
cycle count once computed, the byte length requested from the transport
(if the FIFO read was reached), the frames pushed to the output buffer
(each a list of sample words), and the irqreturn value. -/
structure TriggerResult (E : Type) where
  tag : TriggerTag E
  cycles : Option Int
  requested : Option Int
  frames : List (List Int)
  irq : IrqStatus

/-- Shallow embedding of afe4420_trigger_handler
(src/drivers/iio/health/afe4420-core.c lines 842-878). -/
def afe4420_trigger_handler {E : Type} (env : TriggerEnv E) : TriggerResult E :=
  match env.readPointerDiff with
  | .error e => ⟨.readErr e, Option.none, Option.none, [], .handled⟩
  | .ok regVal =>
    let pointerDiff : Int := sign_extend32 regVal 8 + 1
    if u32ofInt pointerDiff % env.usedPhases ≠ 0 then
      ⟨.framingErr, Option.none, Option.none, [], .handled⟩
    else
      let cycles : Int := toS32 (u32ofInt pointerDiff / env.usedPhases)
      let len : Int := toS32 ((env.usedPhases * u32ofInt cycles) % 2 ^ 32 * 4)
      match env.fifoRead len with
      | .error e => ⟨.fifoErr e, Option.some cycles, Option.some len, [], .handled⟩
      | .ok buf =>
        ⟨.success, Option.some cycles, Option.some len,
          (List.range cycles.toNat).map (fun i =>
            (List.range env.usedPhases).map fun j => buf (i * env.usedPhases + j)),
          .handled⟩

/-- On a 9-bit field the sign extension lands in [-256, 256). -/
theorem sign_extend32_eight_bounds (v : Nat) :
    -256 ≤ sign_extend32 v 8 ∧ sign_extend32 v 8 < 256 := by
  unfold sign_extend32
  norm_num
  split <;> omega

/-- Below 2 ^ 31 the int truncation is the identity. -/
theorem toS32_small {n : Nat} (h : n < 2 ^ 31) : toS32 n = (n : Int) := by
  unfold toS32
  rw [Nat.mod_eq_of_lt (by omega), if_pos h]

/-- A nonnegative int below 2 ^ 32 converts to unsigned unchanged. -/
theorem u32ofInt_eq_toNat {x : Int} (h0 : 0 ≤ x) (h1 : x < 2 ^ 32) :
    u32ofInt x = x.toNat := by
  unfold u32ofInt
  rw [Int.emod_eq_of_lt h0 h1]

/-- Claim C4 (amended): on every sampling interrupt service whose
pointer-difference read succeeds and whose newSampleCount (the
sign-extended register value plus one) is nonnegative, the handler
raises a FramingError and emits no frames exactly when newSampleCount is
not a multiple of the active phase count, and otherwise computes
cycles = newSampleCount / activePhaseCount.  (For a negative
newSampleCount the code instead reduces it modulo 2 ^ 32 before the
divisibility test, because pointer_diff is converted to unsigned int.) -/
theorem c4_pointer_diff_validation {E : Type} (env : TriggerEnv E) (r : Nat)
    (hr : env.readPointerDiff = .ok r) (hp : 0 < env.usedPhases)
    (hnn : 0 ≤ sign_extend32 r 8 + 1) :
    ((sign_extend32 r 8 + 1) % (env.usedPhases : Int) ≠ 0 →
      (afe4420_trigger_handler env).tag = .framingErr ∧
      (afe4420_trigger_handler env).frames = [] ∧
      (afe4420_trigger_handler env).cycles = Option.none) ∧
    ((sign_extend32 r 8 + 1) % (env.usedPhases : Int) = 0 →
      (afe4420_trigger_handler env).cycles
        = Option.some ((sign_extend32 r 8 + 1) / (env.usedPhases : Int))) := by
  have hb := sign_extend32_eight_bounds r
  set pd : Int := sign_extend32 r 8 + 1 with hpd
  have hlt : pd < 2 ^ 32 := by omega
  have hu : u32ofInt pd = pd.toNat := u32ofInt_eq_toNat hnn hlt
  have hcastmod : ((pd.toNat % env.usedPhases : Nat) : Int) = pd % (env.usedPhases : Int) := by
    rw [Int.ofNat_emod, Int.toNat_of_nonneg hnn]
  have hcastdiv : ((pd.toNat / env.usedPhases : Nat) : Int) = pd / (env.usedPhases : Int) := by
    rw [Int.ofNat_ediv, Int.toNat_of_nonneg hnn]
  have hsmall : pd.toNat / env.usedPhases < 2 ^ 31 := by
    have h1 : pd.toNat / env.usedPhases ≤ pd.toNat := Nat.div_le_self _ _
    omega
  constructor
  · intro hne
    have hne' : pd.toNat % env.usedPhases ≠ 0 := by
      intro h0
      apply hne
      rw [← hcastmod, h0, Int.ofNat_zero]
    simp only [afe4420_trigger_handler, hr, hu, if_pos hne']
    exact ⟨trivial, trivial, trivial⟩
  · intro heq
    have heq' : pd.toNat % env.usedPhases = 0 := by
      have : ((pd.toNat % env.usedPhases : Nat) : Int) = 0 := by rw [hcastmod, heq]
      exact_mod_cast this
    have hnot : ¬ (pd.toNat % env.usedPhases ≠ 0) := by simp [heq']
    simp only [afe4420_trigger_handler, hr, hu, if_neg hnot]
    rw [toS32_small hsmall, hcastdiv]
    split <;> rfl

theorem u32ofInt_natCast {n : Nat} (h : n < 2 ^ 32) : u32ofInt (n : Int) = n := by
  rw [u32ofInt_eq_toNat (Int.ofNat_nonneg n) (by exact_mod_cast h), Int.toNat_natCast]

/-- Witness for C4: a pointer difference giving newSampleCount 40 with 4
active phases yields 10 cycles and no error, while newSampleCount 41
yields a FramingError with no frames. -/
theorem c4_pointer_diff_validation_witness :
    (afe4420_trigger_handler (E := Unit)
      ⟨.ok 39, fun _ => .ok fun _ => 0, 4⟩).cycles = Option.some 10 ∧
    (afe4420_trigger_handler (E := Unit)
      ⟨.ok 40, fun _ => .ok fun _ => 0, 4⟩).tag = .framingErr ∧
    (afe4420_trigger_handler (E := Unit)
      ⟨.ok 40, fun _ => .ok fun _ => 0, 4⟩).frames = [] := by
  refine ⟨?_, ?_, ?_⟩
  · have h := (c4_pointer_diff_validation (E := Unit)
      ⟨.ok 39, fun _ => .ok fun _ => 0, 4⟩ 39 rfl (by norm_num) (by decide)).2 (by decide)
    rw [h]; decide
  · exact ((c4_pointer_diff_validation (E := Unit)
      ⟨.ok 40, fun _ => .ok fun _ => 0, 4⟩ 40 rfl (by norm_num) (by decide)).1 (by decide)).1
  · exact ((c4_pointer_diff_validation (E := Unit)
      ⟨.ok 40, fun _ => .ok fun _ => 0, 4⟩ 40 rfl (by norm_num) (by decide)).1 (by decide)).2.1

set_option maxRecDepth 8000 in
/-- Counterexample for C4 as stated: with raw register value 0x180 the
sign extension gives -128, newSampleCount is -127, which is not a
multiple of 3 active phases; the claim demands a FramingError with the
interrupt data discarded, but the code converts -127 to unsigned
(2 ^ 32 - 127, which is divisible by 3) and proceeds, ending in the
success branch and pushing 1431655723 frames. -/
theorem c4_pointer_diff_validation_counterexample :
    (sign_extend32 384 8 + 1) % (3 : Int) ≠ 0 ∧
    (afe4420_trigger_handler (E := Unit)
      ⟨.ok 384, fun _ => .ok fun _ => 0, 3⟩).tag = .success ∧
    (afe4420_trigger_handler (E := Unit)
      ⟨.ok 384, fun _ => .ok fun _ => 0, 3⟩).frames.length = 1431655723 := by
  have hc : ¬(u32ofInt (sign_extend32 384 8 + 1) % 3 ≠ 0) := by decide
  refine ⟨by decide, rfl, ?_⟩
  simp only [afe4420_trigger_handler]
  rw [if_neg hc]
  simp only [List.length_map, List.length_range]
  decide

/-- Counterexample for C5 as stated: the handler's sign extension places
the sign bit at bit index 8 (a 9-bit field), so the raw register value
0x80 = 128 sign-extends to +128, not -128, and newSampleCount is 129,
not -127. -/
theorem c5_sign_extension_counterexample :
    sign_extend32 128 8 = 128 ∧ sign_extend32 128 8 ≠ -128 ∧
    sign_extend32 128 8 + 1 = 129 := by
  decide

/-- Claim C5 (amended): the raw value whose sign extension yields -128
is 0x180 = 384 (bit 8, the sign bit, set), giving newSampleCount
-128 + 1 = -127; with 4 active phases the service then raises a
FramingError, emits no frames and still reports the interrupt handled —
no panic and no negative-index access.  The raw 8-bit value 0x80 = 128
instead sign-extends to +128, giving newSampleCount 129, which with 4
active phases also ends in a FramingError with no frames. -/
theorem c5_sign_extension_framing :
    sign_extend32 384 8 = -128 ∧ sign_extend32 384 8 + 1 = -127 ∧
    (afe4420_trigger_handler (E := Unit)
      ⟨.ok 384, fun _ => .ok fun _ => 0, 4⟩).tag = .framingErr ∧
    (afe4420_trigger_handler (E := Unit)
      ⟨.ok 384, fun _ => .ok fun _ => 0, 4⟩).frames = [] ∧
    (afe4420_trigger_handler (E := Unit)
      ⟨.ok 384, fun _ => .ok fun _ => 0, 4⟩).irq = .handled ∧
    sign_extend32 128 8 = 128 ∧
    (afe4420_trigger_handler (E := Unit)
      ⟨.ok 128, fun _ => .ok fun _ => 0, 4⟩).tag = .framingErr ∧
    (afe4420_trigger_handler (E := Unit)
      ⟨.ok 128, fun _ => .ok fun _ => 0, 4⟩).frames = [] ∧
    (afe4420_trigger_handler (E := Unit)
      ⟨.ok 128, fun _ => .ok fun _ => 0, 4⟩).irq = .handled := by
  refine ⟨by decide, by decide, rfl, rfl, rfl, by decide, rfl, rfl, rfl⟩

/-- Claim C7: whenever newSampleCount is a nonzero exact multiple
activePhaseCount * k of the active phase count and the transport
delivers the data, the handler requests exactly
activePhaseCount * k sample words (4 * activePhaseCount * k bytes) from
the transport and emits exactly k frames of activePhaseCount sample
words each, in cycle order; this holds for every positive k, in
particular both below the expected per-service depth of 10 (early) and
above it (late). -/
theorem c7_frames_per_cycle {E : Type} (env : TriggerEnv E) (r k : Nat) (buf : Nat → Int)
    (hr : env.readPointerDiff = .ok r) (hp : 0 < env.usedPhases) (hk : 0 < k)
    (hmul : sign_extend32 r 8 + 1 = (env.usedPhases : Int) * k)
    (hfifo : env.fifoRead ((4 * (env.usedPhases * k) : Nat) : Int) = .ok buf) :
    (afe4420_trigger_handler env).tag = .success ∧
    (afe4420_trigger_handler env).requested
      = Option.some ((4 * (env.usedPhases * k) : Nat) : Int) ∧
    (afe4420_trigger_handler env).cycles = Option.some (k : Int) ∧
    (afe4420_trigger_handler env).frames
      = (List.range k).map (fun i =>
          (List.range env.usedPhases).map fun j => buf (i * env.usedPhases + j)) ∧
    (afe4420_trigger_handler env).frames.length = k ∧
    (∀ f ∈ (afe4420_trigger_handler env).frames, f.length = env.usedPhases) := by
  have hb := sign_extend32_eight_bounds r
  have hpd : sign_extend32 r 8 + 1 = ((env.usedPhases * k : Nat) : Int) := by
    rw [hmul]; push_cast; ring
  have hpk : env.usedPhases * k ≤ 256 := by
    have h1 : ((env.usedPhases * k : Nat) : Int) ≤ 256 := by rw [← hpd]; omega
    exact_mod_cast h1
  have hkle : k ≤ env.usedPhases * k := Nat.le_mul_of_pos_left k hp
  have hu : u32ofInt (sign_extend32 r 8 + 1) = env.usedPhases * k := by
    rw [hpd]; exact u32ofInt_natCast (by omega)
  have hnot : ¬(env.usedPhases * k % env.usedPhases ≠ 0) := by
    simp [Nat.mul_mod_right]
  have hres : afe4420_trigger_handler env
      = ⟨.success, Option.some (k : Int), Option.some ((4 * (env.usedPhases * k) : Nat) : Int),
          (List.range k).map (fun i =>
            (List.range env.usedPhases).map fun j => buf (i * env.usedPhases + j)),
          .handled⟩ := by
    simp only [afe4420_trigger_handler, hr]
    rw [hu, if_neg hnot, Nat.mul_div_cancel_left k hp,
      show toS32 k = (k : Int) from toS32_small (by omega),
      show u32ofInt (k : Int) = k from u32ofInt_natCast (by omega),
      Nat.mod_eq_of_lt (show env.usedPhases * k < 2 ^ 32 by omega),
      show toS32 (env.usedPhases * k * 4) = ((env.usedPhases * k * 4 : Nat) : Int) from
        toS32_small (by omega),
      show ((env.usedPhases * k * 4 : Nat) : Int) = ((4 * (env.usedPhases * k) : Nat) : Int) by
        push_cast; ring,
      hfifo]
    rfl
  refine ⟨by rw [hres], by rw [hres], by rw [hres], by rw [hres], ?_, ?_⟩
  · rw [hres]
    simp [List.length_map, List.length_range]
  · rw [hres]
    intro f hf
    simp only [List.mem_map, List.mem_range] at hf
    obtain ⟨i, _, rfl⟩ := hf
    simp [List.length_map, List.length_range]

/-- Witness for C7: with 4 active phases, newSampleCount 8 (early, 2
cycles, below the expected depth 10) emits 2 frames and newSampleCount
44 (late, 11 cycles) emits 11 frames, each frame 4 words long. -/
theorem c7_frames_per_cycle_witness :
    ((afe4420_trigger_handler (E := Unit)
        ⟨.ok 7, fun _ => .ok fun n => (n : Int), 4⟩).tag = .success ∧
      (afe4420_trigger_handler (E := Unit)
        ⟨.ok 7, fun _ => .ok fun n => (n : Int), 4⟩).frames.length = 2) ∧
    ((afe4420_trigger_handler (E := Unit)
        ⟨.ok 43, fun _ => .ok fun n => (n : Int), 4⟩).tag = .success ∧
      (afe4420_trigger_handler (E := Unit)
        ⟨.ok 43, fun _ => .ok fun n => (n : Int), 4⟩).frames.length = 11) := by
  constructor
  · have h := c7_frames_per_cycle (E := Unit)
      ⟨.ok 7, fun _ => .ok fun n => (n : Int), 4⟩ 7 2 (fun n => (n : Int))
      rfl (by norm_num) (by norm_num) (by decide) rfl
    exact ⟨h.1, h.2.2.2.2.1⟩
  · have h := c7_frames_per_cycle (E := Unit)
      ⟨.ok 43, fun _ => .ok fun n => (n : Int), 4⟩ 43 11 (fun n => (n : Int))
      rfl (by norm_num) (by norm_num) (by decide) rfl
    exact ⟨h.1, h.2.2.2.2.1⟩

/-- Claim C9: on every invocation the handler reports the interrupt
handled; if the pointer-difference read fails the outcome is that read
error with no frames; and frames are pushed only when the service ends
in the success outcome (pointer read, divisibility validation and FIFO
read all succeeded) — every failure path pushes zero frames. -/
theorem c9_failure_pushes_no_frames {E : Type} (env : TriggerEnv E) :
    (afe4420_trigger_handler env).irq = .handled ∧
    ((afe4420_trigger_handler env).tag ≠ .success →
      (afe4420_trigger_handler env).frames = []) ∧
    (∀ e, env.readPointerDiff = .error e →
      (afe4420_trigger_handler env).tag = .readErr e ∧
      (afe4420_trigger_handler env).frames = []) := by
  rcases henv : env.readPointerDiff with e | r
  · have heq : afe4420_trigger_handler env
        = ⟨.readErr e, Option.none, Option.none, [], .handled⟩ := by
      simp [afe4420_trigger_handler, henv]
    rw [heq]
    refine ⟨rfl, fun _ => rfl, fun e' he' => ?_⟩
    injection he' with h
    subst h
    exact ⟨rfl, rfl⟩
  · refine ⟨?_, ?_, ?_⟩
    · simp only [afe4420_trigger_handler, henv]
      split
      · rfl
      · split <;> rfl
    · simp only [afe4420_trigger_handler, henv]
      split
      · intro _; rfl
      · split
        · intro _; rfl
        · intro h; exact absurd rfl h
    · intro e' he'
      exact Except.noConfusion he'

/-- Witness for C9: a failing pointer-difference read still reports the
interrupt handled, pushes no frames and ends in that read error. -/
theorem c9_failure_pushes_no_frames_witness :
    (afe4420_trigger_handler (E := Unit)
      ⟨.error (), fun _ => .ok fun _ => 0, 4⟩).irq = .handled ∧
    (afe4420_trigger_handler (E := Unit)
      ⟨.error (), fun _ => .ok fun _ => 0, 4⟩).frames = [] ∧
    (afe4420_trigger_handler (E := Unit)
      ⟨.error (), fun _ => .ok fun _ => 0, 4⟩).tag = .readErr () := by
  have h := c9_failure_pushes_no_frames (E := Unit) ⟨.error (), fun _ => .ok fun _ => 0, 4⟩
  exact ⟨h.1, (h.2.2 () rfl).2, (h.2.2 () rfl).1⟩

/-! ### AFE4420 configuration transition (afe4420_update_scan_mode)

Source: src/drivers/iio/health/afe4420-core.c lines 746-791.  On a scan
mask change the driver derives the active phase count with
find_first_zero_bit over the 16 intensity channels (the scan masks are
the prefixes GENMASK(p-1, 0)), enables the photodiode for each active
phase, programs each active phase's sample-timing window, writes the
FIFO watermark phases * AFE4420_FIFO_LEN - 1 (AFE4420_FIFO_LEN = 10)
and the count-minus-one phase register, and only then stores the new
count in afe->used_phases.  Each hardware write can fail; the trace of
writes that were actually performed is recorded as events. -/

/-- find_first_zero_bit over the low size bits: the smallest bit index
below size whose bit is clear, or size when all are set. -/
def find_first_zero_bit (mask : Nat) (size : Nat) : Nat :=
  (((List.range size).filter (fun i => !(mask.testBit i))).head?).getD size

/-- One hardware write performed during a configuration transition. -/
inductive ScanEvent
  | pdEnable (i : Nat)
  | sampleTime (i : Nat)
  | watermark (v : Nat)
  | numPhase (v : Nat)
  deriving DecidableEq

/-- The fallible register writes a configuration transition performs. -/
structure ScanEnv (E : Type) where
  pdWrite : Nat → Except E Unit
  timeWrite : Nat → Except E Unit
  wmWrite : Nat → Except E Unit
  numWrite : Nat → Except E Unit

/-- Outcome of a configuration transition: the returned code, the
successful hardware writes in order, and the stored active phase count
afterwards. -/
structure ScanResult (E : Type) where
  ret : Except E Unit
  events : List ScanEvent
  used_phases : Nat

/-- One of the per-phase for-loops: perform the write for phases
start, start + 1, ..., start + count - 1, recording an event for each
successful write and stopping at the first error. -/
def phaseLoop {E : Type} (w : Nat → Except E Unit) (ev : Nat → ScanEvent) :
    Nat → Nat → Except E Unit × List ScanEvent
  | _, 0 => (.ok (), [])
  | start, count + 1 =>
    match w start with
    | .error e => (.error e, [])
    | .ok _ =>
      let r := phaseLoop w ev (start + 1) count
      (r.1, ev start :: r.2)

/-- Shallow embedding of afe4420_update_scan_mode
(src/drivers/iio/health/afe4420-core.c lines 746-791), with a 16-bit
scan mask (indio_dev->masklength is the 16 intensity channels). -/
def afe4420_update_scan_mode {E : Type} (env : ScanEnv E) (old_used_phases : Nat)
    (scan_mask : Nat) : ScanResult E :=
  let phases := find_first_zero_bit scan_mask 16
  let r1 := phaseLoop env.pdWrite ScanEvent.pdEnable 0 phases
  match r1.1 with
  | .error e => ⟨.error e, r1.2, old_used_phases⟩
  | .ok _ =>
    let r2 := phaseLoop env.timeWrite ScanEvent.sampleTime 0 phases
    match r2.1 with
    | .error e => ⟨.error e, r1.2 ++ r2.2, old_used_phases⟩
    | .ok _ =>
      match env.wmWrite (phases * AFE4420_FIFO_LEN - 1) with
      | .error e => ⟨.error e, r1.2 ++ r2.2, old_used_phases⟩
      | .ok _ =>
        match env.numWrite (phases - 1) with
        | .error e =>
          ⟨.error e, r1.2 ++ r2.2 ++ [.watermark (phases * AFE4420_FIFO_LEN - 1)],
            old_used_phases⟩
        | .ok _ =>
          ⟨.ok (), r1.2 ++ r2.2 ++ [.watermark (phases * AFE4420_FIFO_LEN - 1),
            .numPhase (phases - 1)], phases⟩

/-- find_first_zero_bit of the prefix mask GENMASK(p-1, 0) = 2 ^ p - 1
over 16 bits is p, for every p up to 16. -/
theorem find_first_zero_bit_prefix : ∀ p, p < 17 → find_first_zero_bit (2 ^ p - 1) 16 = p := by
  decide

/-- A per-phase loop that succeeds performed exactly one write per phase,
in ascending phase order. -/
theorem phaseLoop_ok_events {E : Type} (w : Nat → Except E Unit) (ev : Nat → ScanEvent) :
    ∀ (count start : Nat), (phaseLoop w ev start count).1 = .ok () →
      (phaseLoop w ev start count).2 = (List.range count).map (fun i => ev (start + i)) := by
  intro count
  induction count with
  | zero => intro start _; simp [phaseLoop]
  | succ k ih =>
    intro start h
    simp only [phaseLoop] at h ⊢
    cases hw : w start with
    | error e => rw [hw] at h; simp at h
    | ok u =>
      rw [hw] at h
      simp only [] at h ⊢
      have hfun : (fun i => ev (start + 1 + i)) = ((fun i => ev (start + i)) ∘ Nat.succ) := by
        funext i
        simp only [Function.comp_apply]
        congr 1
        omega
      rw [ih (start + 1) h, List.range_succ_eq_map, List.map_cons, List.map_map, hfun]
      simp

/-- Claim C6: for every new active phase count p in 1..16 (scan mask
GENMASK(p-1, 0)), a successful configuration transition enables the
photodiode and programs the sample timing for exactly the p active
phases, programs the FIFO watermark register to p * 10 - 1
(fifoDepth = AFE4420_FIFO_LEN = 10) and the active-phase-count register
to p - 1, and stores p as the active phase count; in particular p = 16
gives watermark 159 and p = 4 (channels 0..3 enabled) gives exactly 4
timing writes, watermark 39 and phase-count register value 3. -/
theorem c6_update_scan_mode_programs {E : Type} (env : ScanEnv E) (old p : Nat)
    (hp1 : 1 ≤ p) (hp16 : p ≤ 16)
    (hok : (afe4420_update_scan_mode env old (2 ^ p - 1)).ret = .ok ()) :
    (afe4420_update_scan_mode env old (2 ^ p - 1)).events
      = ((List.range p).map ScanEvent.pdEnable)
        ++ ((List.range p).map ScanEvent.sampleTime)
        ++ [ScanEvent.watermark (p * 10 - 1), ScanEvent.numPhase (p - 1)] ∧
    (afe4420_update_scan_mode env old (2 ^ p - 1)).used_phases = p := by
  have hffz : find_first_zero_bit (2 ^ p - 1) 16 = p :=
    find_first_zero_bit_prefix p (by omega)
  simp only [afe4420_update_scan_mode, hffz] at hok ⊢
  rcases h1 : (phaseLoop env.pdWrite ScanEvent.pdEnable 0 p).1 with e1 | u1
  · rw [h1] at hok; simp at hok
  rcases h2 : (phaseLoop env.timeWrite ScanEvent.sampleTime 0 p).1 with e2 | u2
  · rw [h1, h2] at hok; simp at hok
  rcases h3 : env.wmWrite (p * AFE4420_FIFO_LEN - 1) with e3 | u3
  · rw [h1, h2, h3] at hok; simp at hok
  rcases h4 : env.numWrite (p - 1) with e4 | u4
  · rw [h1, h2, h3, h4] at hok; simp at hok
  have he1 := phaseLoop_ok_events env.pdWrite ScanEvent.pdEnable p 0 h1
  have he2 := phaseLoop_ok_events env.timeWrite ScanEvent.sampleTime p 0 h2
  simp only [Nat.zero_add] at he1 he2
  simp [he1, he2, AFE4420_FIFO_LEN]

/-- Witness for C6: with a fault-free transport, enabling channels 0..3
(p = 4) performs exactly 4 photodiode enables and 4 timing writes,
programs watermark 39 and phase-count register 3, and stores 4; and
p = 16 programs watermark 159 and phase-count register 15. -/
theorem c6_update_scan_mode_programs_witness :
    ((afe4420_update_scan_mode (E := Unit)
        ⟨fun _ => .ok (), fun _ => .ok (), fun _ => .ok (), fun _ => .ok ()⟩ 0
        (2 ^ 4 - 1)).events
      = ((List.range 4).map ScanEvent.pdEnable)
        ++ ((List.range 4).map ScanEvent.sampleTime)
        ++ [ScanEvent.watermark 39, ScanEvent.numPhase 3] ∧
      (afe4420_update_scan_mode (E := Unit)
        ⟨fun _ => .ok (), fun _ => .ok (), fun _ => .ok (), fun _ => .ok ()⟩ 0
        (2 ^ 4 - 1)).used_phases = 4) ∧
    ((afe4420_update_scan_mode (E := Unit)
        ⟨fun _ => .ok (), fun _ => .ok (), fun _ => .ok (), fun _ => .ok ()⟩ 0
        (2 ^ 16 - 1)).events
      = ((List.range 16).map ScanEvent.pdEnable)
        ++ ((List.range 16).map ScanEvent.sampleTime)
        ++ [ScanEvent.watermark 159, ScanEvent.numPhase 15] ∧
      (afe4420_update_scan_mode (E := Unit)
        ⟨fun _ => .ok (), fun _ => .ok (), fun _ => .ok (), fun _ => .ok ()⟩ 0
        (2 ^ 16 - 1)).used_phases = 16) :=
  ⟨c6_update_scan_mode_programs (E := Unit)
      ⟨fun _ => .ok (), fun _ => .ok (), fun _ => .ok (), fun _ => .ok ()⟩ 0 4
      (by norm_num) (by norm_num) rfl,
    c6_update_scan_mode_programs (E := Unit)
      ⟨fun _ => .ok (), fun _ => .ok (), fun _ => .ok (), fun _ => .ok ()⟩ 0 16
      (by norm_num) (by norm_num) rfl⟩

/-- Claim C10: the stored active phase count is assigned only after all
four configuration sub-steps succeed: whenever any sub-step fails the
transition returns that error and leaves the in-memory active phase
count unchanged, and on success the stored count becomes the phase
count derived from the scan mask. -/
theorem c10_used_phases_on_failure {E : Type} (env : ScanEnv E) (old mask : Nat) :
    (∀ e, (afe4420_update_scan_mode env old mask).ret = .error e →
      (afe4420_update_scan_mode env old mask).used_phases = old) ∧
    ((afe4420_update_scan_mode env old mask).ret = .ok () →
      (afe4420_update_scan_mode env old mask).used_phases
        = find_first_zero_bit mask 16) := by
  simp only [afe4420_update_scan_mode]
  split
  · exact ⟨fun _ _ => rfl, fun h => Except.noConfusion h⟩
  · split
    · exact ⟨fun _ _ => rfl, fun h => Except.noConfusion h⟩
    · split
      · exact ⟨fun _ _ => rfl, fun h => Except.noConfusion h⟩
      · split
        · exact ⟨fun _ _ => rfl, fun h => Except.noConfusion h⟩
        · exact ⟨fun e he => Except.noConfusion he, fun _ => rfl⟩

/-- Witness for C10: a failing watermark write (error code 7) leaves the
stored active phase count at its previous value 9 even though the phase
loops already ran. -/
theorem c10_used_phases_on_failure_witness :
    (afe4420_update_scan_mode (E := Nat)
      ⟨fun _ => .ok (), fun _ => .ok (), fun _ => .error 7, fun _ => .ok ()⟩ 9
      (2 ^ 4 - 1)).used_phases = 9 :=
  (c10_used_phases_on_failure (E := Nat)
    ⟨fun _ => .ok (), fun _ => .ok (), fun _ => .error 7, fun _ => .ok ()⟩ 9
    (2 ^ 4 - 1)).1 7 rfl
